import Mathlib

/-!
Verification of the offline memory planner
(`torch/csrc/jit/passes/memory_planning.cpp` and
`torch/csrc/jit/passes/memory_planning/MemoryPlanningAllocator.cpp`).

The C++ source is shallowly embedded: machine integers (`uint64_t`,
`size_t`) are modelled as `Nat` (no arithmetic in the planner can
overflow in any claim considered here), `std::unordered_map` /
`std::map` as association lists with the corresponding
insert/overwrite/dedup behaviour, and `TORCH_CHECK` /
`TORCH_INTERNAL_ASSERT` failures as `Except.error`.

The packing heuristics (`linear_scan.h`, `greedy_by_size.h`,
`greedy_by_breadth.h`) and the small value-type header
(`memory_planning.h`) are not part of the provided sources; those
definitions are modelled from the specification and are marked
`Modelled from the spec:` in their doc comments.  Everything else is
translated from `memory_planning.cpp`.
-/

namespace MemPlan

/-- `LiveRange` from `memory_planning.h` (declaration only; the struct
is used throughout `memory_planning.cpp`).  Modelled from the spec: a
closed interval `[begin, end]` of integer timestamps. -/
structure LiveRange where
  «begin» : Nat
  «end» : Nat
deriving DecidableEq

/-- `Region` from `memory_planning.h`.  Modelled from the spec:
`(offset: u64, size: u64)`. -/
structure Region where
  offset : Nat
  size : Nat
deriving DecidableEq

/-- Modelled from the spec: two ranges overlap iff their closed
intervals intersect. -/
def LiveRange.overlaps (a b : LiveRange) : Bool :=
  decide (a.«begin» ≤ b.«end») && decide (b.«begin» ≤ a.«end»)

/-- Modelled from the spec: two regions collide iff the half-open
intervals `[offset, offset+size)` intersect. -/
def Region.collides (a b : Region) : Bool :=
  decide (a.offset < b.offset + b.size) && decide (b.offset < a.offset + a.size)

theorem LiveRange.overlaps_comm (a b : LiveRange) : a.overlaps b = b.overlaps a := by
  simp [LiveRange.overlaps, Bool.and_comm]

theorem Region.collides_comm (a b : Region) : a.collides b = b.collides a := by
  simp [Region.collides, Bool.and_comm]

/-! ### Sorting

`std::sort` / `std::map` ordering is modelled by insertion sort with a
boolean "comes no later than" predicate.  Only membership facts about
the result are needed by the theorems below. -/

def insertSorted (le : α → α → Bool) (x : α) : List α → List α
  | [] => [x]
  | y :: ys => if le x y then x :: y :: ys else y :: insertSorted le x ys

def sortBy (le : α → α → Bool) (l : List α) : List α :=
  l.foldr (insertSorted le) []

theorem mem_insertSorted (le : α → α → Bool) (x a : α) :
    ∀ l : List α, a ∈ insertSorted le x l ↔ a = x ∨ a ∈ l := by
  intro l
  induction l with
  | nil => simp [insertSorted]
  | cons y ys ih =>
      by_cases h : le x y = true
      · simp [insertSorted, h]
      · simp only [insertSorted, h]
        simp only [Bool.false_eq_true, if_false, List.mem_cons, ih]
        tauto

theorem mem_sortBy (le : α → α → Bool) (a : α) :
    ∀ l : List α, a ∈ sortBy le l ↔ a ∈ l := by
  intro l
  induction l with
  | nil => simp [sortBy]
  | cons y ys ih =>
      simp only [sortBy, List.foldr_cons] at *
      rw [mem_insertSorted, ih, List.mem_cons]

/-! ### Lowest fitting offset

Modelled from the spec (§4.D): the candidate offsets are `0` and
`p.offset + p.size` for every region `p` that must be avoided; among
the candidates at which a block of the requested size fits (collides
with no avoided region) the minimum is chosen, and the high-water mark
(which always fits) is the fallback. -/

def fitsAt (placed : List Region) (off sz : Nat) : Bool :=
  placed.all fun p => !(Region.collides ⟨off, sz⟩ p)

def hiWater (placed : List Region) : Nat :=
  placed.foldr (fun p m => max (p.offset + p.size) m) 0

def findOffset (placed : List Region) (sz : Nat) : Nat :=
  ((0 :: placed.map fun p => p.offset + p.size).filter
      fun c => fitsAt placed c sz).foldr min (hiWater placed)

theorem le_hiWater (placed : List Region) :
    ∀ p ∈ placed, p.offset + p.size ≤ hiWater placed := by
  induction placed with
  | nil => intro p hp; cases hp
  | cons q rest ih =>
      intro p hp
      rcases List.mem_cons.mp hp with h | h
      · subst h; exact Nat.le_max_left _ _
      · exact Nat.le_trans (ih p h) (Nat.le_max_right _ _)

theorem hiWater_fits (placed : List Region) (sz : Nat) :
    fitsAt placed (hiWater placed) sz = true := by
  rw [fitsAt, List.all_eq_true]
  intro p hp
  have h := le_hiWater placed p hp
  simp [Region.collides, Nat.not_lt.mpr h]

theorem foldr_min_pred (P : Nat → Bool) :
    ∀ (l : List Nat) (init : Nat), (∀ x ∈ l, P x = true) → P init = true →
      P (l.foldr min init) = true := by
  intro l
  induction l with
  | nil => intro init _ hinit; exact hinit
  | cons c rest ih =>
      intro init hl hinit
      simp only [List.foldr_cons]
      rcases Nat.le_total c (rest.foldr min init) with h | h
      · rw [Nat.min_eq_left h]; exact hl c (List.mem_cons_self _ _)
      · rw [Nat.min_eq_right h]
        exact ih init (fun x hx => hl x (List.mem_cons_of_mem _ hx)) hinit

theorem findOffset_fits (placed : List Region) (sz : Nat) :
    fitsAt placed (findOffset placed sz) sz = true := by
  rw [findOffset]
  apply foldr_min_pred (fun c => fitsAt placed c sz)
  · intro x hx
    exact (List.mem_filter.mp hx).2
  · exact hiWater_fits placed sz

/-! ### The generic packing loop

All three heuristics process `(LiveRange, size)` items in some order
and place each item at the lowest fitting offset relative to the
regions of the already placed items selected by a filter (`packGo`).
Modelled from the spec (§4.D). -/

def packGo (filt : LiveRange → LiveRange → Bool) :
    List (LiveRange × Region) → List (LiveRange × Nat) → List (LiveRange × Region)
  | acc, [] => acc
  | acc, (l, s) :: rest =>
      let avoid := (acc.filter fun q => filt q.1 l).map fun q => q.2
      packGo filt (acc ++ [(l, ⟨findOffset avoid s, s⟩)]) rest

theorem packGo_sub (filt : LiveRange → LiveRange → Bool) :
    ∀ (items : List (LiveRange × Nat)) (acc : List (LiveRange × Region))
      (x : LiveRange × Region), x ∈ acc → x ∈ packGo filt acc items := by
  intro items
  induction items with
  | nil => intro acc x hx; exact hx
  | cons hd rest ih =>
      intro acc x hx
      obtain ⟨l, s⟩ := hd
      exact ih _ x (List.mem_append_left _ hx)

theorem packGo_mem (filt : LiveRange → LiveRange → Bool) :
    ∀ (items : List (LiveRange × Nat)) (acc : List (LiveRange × Region)),
      ∀ p ∈ items, ∃ q ∈ packGo filt acc items, q.1 = p.1 ∧ q.2.size = p.2 := by
  intro items
  induction items with
  | nil => intro acc p hp; cases hp
  | cons hd rest ih =>
      intro acc p hp
      obtain ⟨l, s⟩ := hd
      rcases List.mem_cons.mp hp with h | h
      · subst h
        refine ⟨(l, ⟨findOffset ((acc.filter fun q => filt q.1 l).map fun q => q.2) s, s⟩),
          ?_, rfl, rfl⟩
        exact packGo_sub filt rest _ _ (List.mem_append_right _ (List.mem_cons_self _ _))
      · exact ih _ p h

/-- The plan-correctness invariant of the spec (§4.D): distinct
overlapping ranges get non-colliding regions. -/
abbrev planNoCollide (plan : List (LiveRange × Region)) : Prop :=
  ∀ p ∈ plan, ∀ q ∈ plan, p.1 ≠ q.1 → p.1.overlaps q.1 = true → p.2.collides q.2 = false

theorem packGo_noCollide (filt : LiveRange → LiveRange → Bool)
    (hf : ∀ a b, a.overlaps b = true → filt a b = true) :
    ∀ (items : List (LiveRange × Nat)) (acc : List (LiveRange × Region)),
      planNoCollide acc → planNoCollide (packGo filt acc items) := by
  intro items
  induction items with
  | nil => intro acc hacc; exact hacc
  | cons hd rest ih =>
      intro acc hacc
      obtain ⟨l, s⟩ := hd
      apply ih
      intro p hp q hq hne hov
      set avoid := (acc.filter fun r => filt r.1 l).map fun r => r.2 with havoid
      have hfits := findOffset_fits avoid s
      rw [fitsAt, List.all_eq_true] at hfits
      rcases List.mem_append.mp hp with hpa | hpl
      · rcases List.mem_append.mp hq with hqa | hql
        · exact hacc p hpa q hqa hne hov
        · -- q is the newly placed item
          have hq1 : q = (l, ⟨findOffset avoid s, s⟩) := List.mem_singleton.mp hql
          have hmem : p.2 ∈ avoid := by
            rw [havoid]
            apply List.mem_map.mpr
            refine ⟨p, List.mem_filter.mpr ⟨hpa, ?_⟩, rfl⟩
            apply hf
            rw [hq1] at hov
            exact hov
          have := hfits p.2 hmem
          rw [Bool.not_eq_true'] at this
          rw [hq1]
          rw [Region.collides_comm] at this
          exact this
      · have hp1 : p = (l, ⟨findOffset avoid s, s⟩) := List.mem_singleton.mp hpl
        rcases List.mem_append.mp hq with hqa | hql
        · have hmem : q.2 ∈ avoid := by
            rw [havoid]
            apply List.mem_map.mpr
            refine ⟨q, List.mem_filter.mpr ⟨hqa, ?_⟩, rfl⟩
            apply hf
            rw [hp1] at hov
            rw [LiveRange.overlaps_comm] at hov
            exact hov
          have := hfits q.2 hmem
          rw [Bool.not_eq_true'] at this
          rw [hp1]
          exact this
        · have hq1 : q = (l, ⟨findOffset avoid s, s⟩) := List.mem_singleton.mp hql
          exfalso
          apply hne
          rw [hp1, hq1]

/-! ### Graph model

Shallow embedding of the JIT graph interface used by the planner
(`Graph`, `Node`, `Value`, `TensorType`).  A `Value` carries its id and
an optional tensor type; a `GNode` carries its kind, topological
timestamp, canonical schema string (`getHeader` /
`canonicalSchemaString`), input value ids, output values and its
integer / integer-list attributes. -/

/-- `c10::TensorType`: optional scalar type (as a dtype code), optional
concrete sizes and strides. -/
structure TType where
  scalarType : Option Nat
  sizes : Option (List Nat)
  strides : Option (List Nat)
deriving DecidableEq

/-- `torch::jit::Value`: an id plus its (optional tensor) type. -/
structure Value where
  vid : Nat
  vtype : Option TType
deriving DecidableEq

/-- `torch::jit::Node`. -/
structure GNode where
  nid : Nat
  kind : String
  time : Nat
  header : String
  inputs : List Nat
  outputs : List Value
  nattrs : List (String × Nat)
  lattrs : List (String × List Nat)
deriving DecidableEq

/-- `torch::jit::Graph`: its node list in topological order. -/
structure Graph where
  nodes : List GNode
deriving DecidableEq

/-! ### The three packing heuristics

`linearScanHeuristic`, `greedyBySize` and `greedyByOperatorBreadth`
live in `linear_scan.h`, `greedy_by_size.h` and `greedy_by_breadth.h`,
which are not among the provided sources; they are modelled from the
spec (§4.D). -/

/-- Modelled from the spec: `begin` ascending, ties by `end`
ascending (the total order required of live ranges in §3). -/
def startPairLe (a b : LiveRange × Nat) : Bool :=
  decide (a.1.«begin» < b.1.«begin») ||
    (decide (a.1.«begin» = b.1.«begin») && decide (a.1.«end» ≤ b.1.«end»))

/-- Modelled from the spec: linear scan processes ranges in `begin`
ascending order and places each at the lowest offset that avoids every
still-active placed range (a placed range is evicted once its `end`
lies before the current range's `begin`). -/
def linearScanHeuristic (managed : List (LiveRange × Nat)) : List (LiveRange × Region) :=
  packGo (fun q l => decide (l.«begin» ≤ q.«end»)) [] (sortBy startPairLe managed)

/-- Modelled from the spec: greedy-by-size order — size descending,
ties by `begin` ascending, then `end` ascending. -/
def sizeOrder (a b : LiveRange × Nat) : Bool :=
  decide (b.2 < a.2) || (decide (a.2 = b.2) && startPairLe a b)

/-- Modelled from the spec: greedy-by-size processes ranges largest
first and places each at the lowest offset avoiding every already
placed range whose live range overlaps the current one. -/
def greedyBySize (managed : List (LiveRange × Nat)) : List (LiveRange × Region) :=
  packGo (fun q l => q.overlaps l) [] (sortBy sizeOrder managed)

/-- Modelled from the spec: breadth of an operator — the sum of sizes
of managed values whose live range contains the node's timestamp. -/
def nodeBreadth (sizes : List (Nat × Nat)) (ranges : List (Nat × LiveRange)) (n : GNode) : Nat :=
  sizes.foldr
    (fun p acc =>
      match ranges.lookup p.1 with
      | some r => if r.«begin» ≤ n.time ∧ n.time ≤ r.«end» then p.2 + acc else acc
      | none => acc) 0

/-- The `(range, size)` item of a managed output value, when both maps
know the value. -/
def managedItem (sizes : List (Nat × Nat)) (ranges : List (Nat × LiveRange)) (v : Value) :
    Option (LiveRange × Nat) :=
  match sizes.lookup v.vid, ranges.lookup v.vid with
  | some s, some r => some (r, s)
  | _, _ => none

/-- The stream of managed items contributed by a node list, each node
contributing its outputs in graph order. -/
def breadthItems (sizes : List (Nat × Nat)) (ranges : List (Nat × LiveRange)) :
    List GNode → List (LiveRange × Nat)
  | [] => []
  | n :: ns => n.outputs.filterMap (managedItem sizes ranges) ++ breadthItems sizes ranges ns

/-- Modelled from the spec: greedy-by-operator-breadth sorts the
out-variant nodes by breadth descending and places each node's managed
output values with the greedy-by-size placement rule. -/
def greedyByOperatorBreadth (sizes : List (Nat × Nat)) (ranges : List (Nat × LiveRange))
    (outNodes : List GNode) : List (LiveRange × Region) :=
  packGo (fun q l => q.overlaps l) []
    (breadthItems sizes ranges
      (sortBy (fun a b => decide (nodeBreadth sizes ranges b ≤ nodeBreadth sizes ranges a))
        outNodes))

/-- Every input range appears in the plan with its input size. -/
abbrev planComplete (managed : List (LiveRange × Nat)) (plan : List (LiveRange × Region)) : Prop :=
  ∀ p ∈ managed, ∃ q ∈ plan, q.1 = p.1 ∧ q.2.size = p.2

theorem lookup_eq_some_of_nodup {β : Type} :
    ∀ (l : List (Nat × β)), (l.map Prod.fst).Nodup → ∀ k v, (k, v) ∈ l →
      l.lookup k = some v := by
  intro l
  induction l with
  | nil => intro _ k v hv; cases hv
  | cons hd tl ih =>
      intro hnd k v hv
      obtain ⟨a, b⟩ := hd
      rw [List.map_cons, List.nodup_cons] at hnd
      rcases List.mem_cons.mp hv with h | h
      · obtain ⟨hk, hv'⟩ := Prod.mk.injEq .. ▸ h
        subst hk; subst hv'
        simp [List.lookup]
      · have hka : k ≠ a := by
          intro hk
          apply hnd.1
          subst hk
          exact List.mem_map.mpr ⟨(k, v), h, rfl⟩
        have : (k == a) = false := by
          simp [hka]
        simp [List.lookup, this]
        exact ih hnd.2 k v h

theorem breadthItems_mem (sizes : List (Nat × Nat)) (ranges : List (Nat × LiveRange))
    (x : LiveRange × Nat) :
    ∀ (ns : List GNode) (n : GNode), n ∈ ns →
      x ∈ n.outputs.filterMap (managedItem sizes ranges) →
      x ∈ breadthItems sizes ranges ns := by
  intro ns
  induction ns with
  | nil => intro n hn; cases hn
  | cons hd tl ih =>
      intro n hn hx
      rcases List.mem_cons.mp hn with h | h
      · subst h
        exact List.mem_append_left _ hx
      · exact List.mem_append_right _ (ih n h hx)

/-- C1: for every managed-ranges map and every strategy in
{LinearScan, GreedyBySize, GreedyByBreadth}, the produced plan contains
every input range, gives each range a region of exactly the input
size, and assigns non-colliding regions to any two distinct ranges
whose live intervals overlap. -/
theorem c1_packing_plans_correct
    (managed : List (LiveRange × Nat))
    (sizes : List (Nat × Nat)) (ranges : List (Nat × LiveRange)) (outNodes : List GNode)
    (hsz : (sizes.map Prod.fst).Nodup) (hrg : (ranges.map Prod.fst).Nodup)
    (hcov : ∀ p ∈ sizes, ∀ q ∈ ranges, p.1 = q.1 →
      ∃ n ∈ outNodes, ∃ val ∈ n.outputs, val.vid = p.1) :
    (planComplete managed (linearScanHeuristic managed) ∧
      planNoCollide (linearScanHeuristic managed)) ∧
    (planComplete managed (greedyBySize managed) ∧
      planNoCollide (greedyBySize managed)) ∧
    ((∀ p ∈ sizes, ∀ q ∈ ranges, p.1 = q.1 →
        ∃ x ∈ greedyByOperatorBreadth sizes ranges outNodes, x.1 = q.2 ∧ x.2.size = p.2) ∧
      planNoCollide (greedyByOperatorBreadth sizes ranges outNodes)) := by
  refine ⟨⟨?_, ?_⟩, ⟨?_, ?_⟩, ⟨?_, ?_⟩⟩
  · intro p hp
    exact packGo_mem _ _ [] p ((mem_sortBy startPairLe p managed).mpr hp)
  · apply packGo_noCollide
    · intro a b hov
      rw [LiveRange.overlaps, Bool.and_eq_true] at hov
      exact hov.2
    · intro p hp; cases hp
  · intro p hp
    exact packGo_mem _ _ [] p ((mem_sortBy sizeOrder p managed).mpr hp)
  · apply packGo_noCollide
    · intro a b hov; exact hov
    · intro p hp; cases hp
  · intro p hp q hq hpq
    obtain ⟨n, hn, val, hval, hvid⟩ := hcov p hp q hq hpq
    have hlook1 : sizes.lookup val.vid = some p.2 := by
      rw [hvid]
      exact lookup_eq_some_of_nodup sizes hsz p.1 p.2 hp
    have hlook2 : ranges.lookup val.vid = some q.2 := by
      rw [hvid, hpq]
      exact lookup_eq_some_of_nodup ranges hrg q.1 q.2 hq
    have hmi : managedItem sizes ranges val = some (q.2, p.2) := by
      rw [managedItem, hlook1, hlook2]
    have hin : (q.2, p.2) ∈ breadthItems sizes ranges
        (sortBy (fun a b => decide (nodeBreadth sizes ranges b ≤ nodeBreadth sizes ranges a))
          outNodes) := by
      apply breadthItems_mem sizes ranges _ _ n
      · exact (mem_sortBy _ n outNodes).mpr hn
      · exact List.mem_filterMap.mpr ⟨val, hval, hmi⟩
    exact packGo_mem _ _ [] (q.2, p.2) hin
  · apply packGo_noCollide
    · intro a b hov; exact hov
    · intro p hp; cases hp

/-- The spec's end-to-end scenario `{R1=[0,3]=100, R2=[1,2]=40,
R3=[4,6]=60, R4=[5,7]=30}`, used as the witness input for C1. -/
def c1m : List (LiveRange × Nat) := [(⟨0, 3⟩, 100), (⟨1, 2⟩, 40), (⟨4, 6⟩, 60), (⟨5, 7⟩, 30)]

def c1sizes : List (Nat × Nat) := [(7, 16)]

def c1ranges : List (Nat × LiveRange) := [(7, ⟨0, 1⟩)]

def c1nodes : List GNode := [⟨1, "op", 0, "h", [], [⟨7, none⟩], [], []⟩]

/-- Witness for C1 at the spec's concrete scenario. -/
theorem c1_packing_plans_correct_witness :
    ((c1sizes.map Prod.fst).Nodup ∧ (c1ranges.map Prod.fst).Nodup ∧
      (∀ p ∈ c1sizes, ∀ q ∈ c1ranges, p.1 = q.1 →
        ∃ n ∈ c1nodes, ∃ val ∈ n.outputs, val.vid = p.1)) ∧
    ((planComplete c1m (linearScanHeuristic c1m) ∧
        planNoCollide (linearScanHeuristic c1m)) ∧
      (planComplete c1m (greedyBySize c1m) ∧
        planNoCollide (greedyBySize c1m)) ∧
      ((∀ p ∈ c1sizes, ∀ q ∈ c1ranges, p.1 = q.1 →
          ∃ x ∈ greedyByOperatorBreadth c1sizes c1ranges c1nodes, x.1 = q.2 ∧ x.2.size = p.2) ∧
        planNoCollide (greedyByOperatorBreadth c1sizes c1ranges c1nodes))) :=
  ⟨⟨by decide, by decide, by decide⟩,
    c1_packing_plans_correct c1m c1sizes c1ranges c1nodes (by decide) (by decide) (by decide)⟩

/-! ### Trace events and the trace-based liveness extractor

`MemEvent`, `FrameNodeId` and `getLiveRangesFromMemEvents`
(`memory_planning.cpp`, lines 301-330).  The `pc` and `backtrace`
fields of `MemEvent` are never read by the extractor and are omitted.
`TORCH_INTERNAL_ASSERT` failure is `Except.error`. -/

inductive EventType where
  | Allocate
  | Free
deriving DecidableEq

structure MemEvent where
  time : Nat
  ptr_addr : String
  node_schema : String
  node_header : String
  size : Nat
  type : EventType
deriving DecidableEq

structure FrameNodeId where
  time : Nat
  node_schema : String
  node_header : String
deriving DecidableEq

/-- `std::unordered_map::insert`: a no-op when the key is present. -/
def amInsert {α : Type} [BEq α] {β : Type} (m : List (α × β)) (k : α) (v : β) :
    List (α × β) :=
  if (m.lookup k).isSome then m else m ++ [(k, v)]

/-- The sweep state of `getLiveRangesFromMemEvents`: the open
allocation map `allocs`, the accumulated `managed_live_ranges` and
`live_range_node_header`. -/
structure ExtractState where
  allocs : List (String × MemEvent)
  managed : List (LiveRange × Nat)
  headers : List (LiveRange × FrameNodeId)
deriving DecidableEq

/-- One iteration of the event sweep (`memory_planning.cpp`, lines
310-327).  On `Allocate` the event is inserted into `allocs`.  On
`Free` the entry must exist and the asserted condition is
`alloc.type == Allocate && alloc.size == size && alloc.time < time &&
alloc.node_schema == node_schema`; in the source the comparison
`alloc.node_header == mem_event.node_header` sits in the message
position of `TORCH_INTERNAL_ASSERT` (after the comma) and is therefore
not part of the asserted condition.  The matched entry is never erased
from `allocs`, as in the source. -/
def processMemEvent (st : ExtractState) (ev : MemEvent) : Except String ExtractState :=
  match ev.type with
  | EventType.Allocate => Except.ok { st with allocs := amInsert st.allocs ev.ptr_addr ev }
  | EventType.Free =>
      match st.allocs.lookup ev.ptr_addr with
      | none => Except.error "INTERNAL ASSERT FAILED: no open allocation for ptr_addr"
      | some alloc =>
          if alloc.type = EventType.Allocate ∧ alloc.size = ev.size ∧
              alloc.time < ev.time ∧ alloc.node_schema = ev.node_schema then
            Except.ok { st with
              managed := amInsert st.managed ⟨alloc.time, ev.time⟩ alloc.size,
              headers := st.headers ++
                [(⟨alloc.time, ev.time⟩, ⟨alloc.time, alloc.node_schema, alloc.node_header⟩)] }
          else
            Except.error "INTERNAL ASSERT FAILED: free event does not match open allocation"

def runEvents : ExtractState → List MemEvent → Except String ExtractState
  | st, [] => Except.ok st
  | st, ev :: evs =>
      match processMemEvent st ev with
      | Except.ok st' => runEvents st' evs
      | Except.error msg => Except.error msg

/-- `getLiveRangesFromMemEvents` (`memory_planning.cpp`, lines
301-330): sweep the events, then assert that the open-allocation map
is empty. -/
def getLiveRangesFromMemEvents (mem_events : List MemEvent) :
    Except String (List (LiveRange × Nat) × List (LiveRange × FrameNodeId)) :=
  match runEvents ⟨[], [], []⟩ mem_events with
  | Except.error msg => Except.error msg
  | Except.ok st =>
      if st.allocs.isEmpty then Except.ok (st.managed, st.headers)
      else Except.error "INTERNAL ASSERT FAILED: allocs not empty"

/-- A minimal fully matched trace: one Allocate/Free pair with
identical `ptr_addr`, `size`, `node_schema` and `node_header`. -/
def c2evs : List MemEvent :=
  [⟨1, "X", "s", "h", 16, EventType.Allocate⟩,
   ⟨2, "X", "s", "h", 16, EventType.Free⟩]

/-- C2: on a fully matched trace the extractor is claimed to erase
each matched entry when its Free is processed and to pass its final
empty-map assertion.  The code never erases: after the sweep the open
map still holds the allocation (and the correct live range was
emitted), so the final `TORCH_INTERNAL_ASSERT(allocs.empty())` fails
and the whole call errors. -/
theorem c2_matched_trace_still_asserts :
    runEvents ⟨[], [], []⟩ c2evs =
      Except.ok ⟨[("X", ⟨1, "X", "s", "h", 16, EventType.Allocate⟩)],
        [(⟨1, 2⟩, 16)],
        [(⟨1, 2⟩, ⟨1, "s", "h"⟩)]⟩ ∧
    getLiveRangesFromMemEvents c2evs =
      Except.error "INTERNAL ASSERT FAILED: allocs not empty" := by
  constructor
  · rfl
  · rfl

/-- The spec's trace scenario: two properly matched Allocate/Free
pairs `[Alloc@t=1 p=X s=16, Alloc@t=2 p=Y s=8, Free@t=5 p=Y s=8,
Free@t=9 p=X s=16]`. -/
def c3evs : List MemEvent :=
  [⟨1, "X", "s", "h", 16, EventType.Allocate⟩,
   ⟨2, "Y", "s", "h", 8, EventType.Allocate⟩,
   ⟨5, "Y", "s", "h", 8, EventType.Free⟩,
   ⟨9, "X", "s", "h", 16, EventType.Free⟩]

/-- C3: the sweep does compute exactly the `n = 2` expected
`(begin, end, size)` triples `{[2,5]=8, [1,9]=16}`, but
`getLiveRangesFromMemEvents` never returns them: because matched
entries are not erased, the final empty-map assertion fails and the
function throws instead of returning the `n` live ranges. -/
theorem c3_trace_roundtrip_throws :
    (runEvents ⟨[], [], []⟩ c3evs).map (fun st => st.managed) =
      Except.ok [(⟨2, 5⟩, 8), (⟨1, 9⟩, 16)] ∧
    getLiveRangesFromMemEvents c3evs =
      Except.error "INTERNAL ASSERT FAILED: allocs not empty" := by
  constructor
  · rfl
  · rfl

/-- C5: a Free whose `node_header` differs from the open Allocate's
(`h1` vs `h2`) while `ptr_addr`, `size`, `node_schema` and the times
are consistent.  The claim says processing this Free raises an
assertion failure; in the code the header comparison is only the
assert's message (comma operator), so the step succeeds and even emits
the live range. -/
theorem c5_header_mismatch_not_checked :
    processMemEvent
        ⟨[("X", ⟨1, "X", "s", "h1", 16, EventType.Allocate⟩)], [], []⟩
        ⟨5, "X", "s", "h2", 16, EventType.Free⟩ =
      Except.ok ⟨[("X", ⟨1, "X", "s", "h1", 16, EventType.Allocate⟩)],
        [(⟨1, 5⟩, 16)],
        [(⟨1, 5⟩, ⟨1, "s", "h1"⟩)]⟩ := by
  rfl

/-! ### Strategy enum, storage node, total size -/

inductive Strategy where
  | NAIVE
  | LINEAR_SCAN
  | GREEDY_BY_SIZE
  | GREEDY_BY_BREADTH
deriving DecidableEq

/-- `getTotalAllocationSize` (`memory_planning.cpp`, lines 254-261):
the maximum of `offset + size` over the plan. -/
def getTotalAllocationSize (allocations : List (LiveRange × Region)) : Nat :=
  allocations.foldr (fun p m => max m (p.2.offset + p.2.size)) 0

/-- The largest node or value id occurring in a graph; fresh ids for
inserted nodes and their outputs are taken above it. -/
def graphMaxId (g : Graph) : Nat :=
  g.nodes.foldr
    (fun n m => max n.nid (max (n.outputs.foldr (fun v mm => max v.vid mm) 0) m)) 0

/-- The `prim::AllocateStorage` node created by `insertAllocStorageNode`
(`memory_planning.cpp`, lines 84-98): one output, attributes
`total_size` and `device` (the graph's device type, defaulting to CPU,
encoded 0, when unknown). -/
def storageNodeFor (g : Graph) (deviceType : Option Nat) (total : Nat) : GNode :=
  { nid := graphMaxId g + 1, kind := "AllocateStorage", time := 0, header := "",
    inputs := [], outputs := [⟨graphMaxId g + 2, none⟩],
    nattrs := [("total_size", total), ("device", deviceType.getD 0)], lattrs := [] }

/-- `insertAllocStorageNode`: the storage node goes before the front
node of the graph. -/
def insertAllocStorageNode (g : Graph) (deviceType : Option Nat) (total : Nat) :
    Graph × GNode :=
  (⟨storageNodeFor g deviceType total :: g.nodes⟩, storageNodeFor g deviceType total)

/-! ### Trace-mode materialization -/

/-- `live_range_start_cmp` as a "comes no later" predicate: `begin`
ascending, ties by `end` ascending (spec §3's total order). -/
def startLe (a b : LiveRange) : Bool :=
  decide (a.«begin» < b.«begin») ||
    (decide (a.«begin» = b.«begin») && decide (a.«end» ≤ b.«end»))

/-- Grouping step of `collectLiveRangesPerNode`: append the live range
to the group of its frame node id, creating the group if absent. -/
def addToGroup (gs : List (FrameNodeId × List LiveRange)) (fid : FrameNodeId)
    (lvr : LiveRange) : List (FrameNodeId × List LiveRange) :=
  match gs with
  | [] => [(fid, [lvr])]
  | (f, ls) :: rest =>
      if f = fid then (f, ls ++ [lvr]) :: rest else (f, ls) :: addToGroup rest fid lvr

/-- `collectLiveRangesPerNode` (`memory_planning.cpp`, lines 274-299):
group the `(LiveRange, FrameNodeId)` pairs by frame node id, sort each
group's ranges by `live_range_start_cmp`, and sort the groups by
`frame_node_id_cmp` (by time). -/
def collectLiveRangesPerNode (lrnh : List (LiveRange × FrameNodeId)) :
    List (FrameNodeId × List LiveRange) :=
  sortBy (fun a b => decide (a.1.time ≤ b.1.time))
    ((lrnh.foldl (fun gs p => addToGroup gs p.2 p.1) []).map
      (fun grp => (grp.1, sortBy startLe grp.2)))

/-- The cursor loop of `insertPreAllocTensorNodes`
(`memory_planning.cpp`, line 157): `while
(!getHeader(*node).compare(frame_id.node_header)) node++;`.
`std::string::compare` returns `0` exactly on equality, so the loop
advances while the header is EQUAL to `node_header` and stops at the
first node whose header differs.  Running off the end of the node list
(undefined behaviour in the source) is an error. -/
def advanceCursor (hdr : String) : List GNode → List GNode → Option (List GNode × List GNode)
  | _, [] => none
  | done, n :: rest =>
      if n.header = hdr then advanceCursor hdr (done ++ [n]) rest else some (done, n :: rest)

/-- The `prim::PreAllocateTensor` nodes for one group, carrying only
the `size` and `offset` attributes; the region is looked up in the
plan (`std::unordered_map::operator[]`, defaulting to a zero region
when absent). -/
def mkPreAllocNodes (allocations : List (LiveRange × Region)) (lvrs : List LiveRange)
    (fresh : Nat) : List GNode × Nat :=
  lvrs.foldl
    (fun acc lvr =>
      let region := (allocations.lookup lvr).getD ⟨0, 0⟩
      let pre : GNode :=
        { nid := acc.2, kind := "PreAllocateTensor", time := 0, header := "",
          inputs := [], outputs := [],
          nattrs := [("size", region.size), ("offset", region.offset)], lattrs := [] }
      (acc.1 ++ [pre], acc.2 + 1))
    ([], fresh)

/-- The group loop of `insertPreAllocTensorNodes`
(`memory_planning.cpp`, lines 153-175): the cursor persists across
groups; after the cursor loop the source asserts
`canonicalSchemaString(node->schema()).compare(frame_id.node_header)`,
which is truthy exactly when the strings DIFFER; the group's
pre-allocation nodes are inserted before the cursor node. -/
def preAllocGo (allocations : List (LiveRange × Region)) :
    List GNode → List GNode → Nat → List (FrameNodeId × List LiveRange) →
      Except String (List GNode)
  | done, rest, _, [] => Except.ok (done ++ rest)
  | done, rest, fresh, (fid, lvrs) :: groups =>
      match advanceCursor fid.node_header done rest with
      | none => Except.error "cursor advanced past the end of the graph"
      | some (_, []) => Except.error "cursor advanced past the end of the graph"
      | some (done2, n :: rest2) =>
          if n.header = fid.node_header then
            Except.error "INTERNAL ASSERT FAILED: canonical schema string equals node_header"
          else
            let (news, fresh2) := mkPreAllocNodes allocations (sortBy startLe lvrs) fresh
            preAllocGo allocations (done2 ++ news) (n :: rest2) fresh2 groups

/-- `insertPreAllocTensorNodes` (`memory_planning.cpp`, lines
139-176).  The `storage` argument is accepted but never read: the
`total_size` read is commented out in the source and no placement
bound is checked in trace mode. -/
def insertPreAllocTensorNodes (g : Graph) (storage : GNode)
    (allocations : List (LiveRange × Region))
    (collected : List (FrameNodeId × List LiveRange)) (fresh : Nat) :
    Except String Graph :=
  let _storage := storage
  (preAllocGo allocations [] g.nodes fresh
      (sortBy (fun a b => decide (a.1.time ≤ b.1.time)) collected)).map Graph.mk

/-- The post-switch part of `planMemoryWithTracing` for a chosen plan:
total size, storage node, collected groups, pre-allocation nodes. -/
def tracingMaterialize (g : Graph) (allocations : List (LiveRange × Region))
    (lrnh : List (LiveRange × FrameNodeId)) (deviceType : Option Nat) :
    Except String Graph :=
  let total := getTotalAllocationSize allocations
  let (g2, storage) := insertAllocStorageNode g deviceType total
  insertPreAllocTensorNodes g2 storage allocations (collectLiveRangesPerNode lrnh)
    (graphMaxId g2 + 1)

/-- The strategy switch of `planMemoryWithTracing`
(`memory_planning.cpp`, lines 342-371), taking the extraction results
as inputs.  `allocations` is first unconditionally initialised with
`greedyBySize` (line 342); `NAIVE` returns immediately, and
`GREEDY_BY_BREADTH` falls into the `default:` case, which also
returns with the graph untouched. -/
def planMemoryWithTracingRest (g : Graph) (strat : Strategy)
    (managed_live_ranges : List (LiveRange × Nat))
    (live_range_node_header : List (LiveRange × FrameNodeId))
    (deviceType : Option Nat) : Except String Graph :=
  let _defaultAllocations := greedyBySize managed_live_ranges
  match strat with
  | Strategy.NAIVE => Except.ok g
  | Strategy.LINEAR_SCAN =>
      tracingMaterialize g (linearScanHeuristic managed_live_ranges)
        live_range_node_header deviceType
  | Strategy.GREEDY_BY_SIZE =>
      tracingMaterialize g (greedyBySize managed_live_ranges)
        live_range_node_header deviceType
  | Strategy.GREEDY_BY_BREADTH => Except.ok g

/-- `planMemoryWithTracing` (`memory_planning.cpp`, lines 332-372):
assert a non-empty event list, extract live ranges from the trace,
then dispatch on the strategy. -/
def planMemoryWithTracing (g : Graph) (strat : Strategy) (mem_events : List MemEvent)
    (deviceType : Option Nat) : Except String Graph :=
  if mem_events.isEmpty then
    Except.error "INTERNAL ASSERT FAILED: mem_events empty"
  else
    match getLiveRangesFromMemEvents mem_events with
    | Except.error msg => Except.error msg
    | Except.ok p => planMemoryWithTracingRest g strat p.1 p.2 deviceType

/-- C10: for any graph and any extraction result, the tracing planner
with strategy `GREEDY_BY_BREADTH` (the `default:` branch of its
switch) returns normally and leaves the graph unchanged. -/
theorem c10_tracing_greedy_by_breadth_noop (g : Graph)
    (managed_live_ranges : List (LiveRange × Nat))
    (live_range_node_header : List (LiveRange × FrameNodeId)) (deviceType : Option Nat) :
    planMemoryWithTracingRest g Strategy.GREEDY_BY_BREADTH managed_live_ranges
      live_range_node_header deviceType = Except.ok g := rfl

def c4nA : GNode := ⟨1, "opA", 0, "A", [], [], [], []⟩

def c4nH : GNode := ⟨2, "opH", 1, "H", [], [], [], []⟩

/-- C4: trace-mode cursor movement, evaluated on two graphs for the
group `{time=1, schema=s, header=H}` with plan `{[1,5] -> (0,16)}`.
On `[opA(header A), opH(header H)]` the cursor does not move (A
differs from H) and the PreAllocateTensor lands before the
NON-matching node `opA`, not before `opH` as the claim requires; on
`[opH(header H), opX(header X)]` the cursor skips the matching `opH`
and the node lands after it, before `opX`. -/
theorem c4_cursor_stops_at_first_nonmatching_header :
    (insertPreAllocTensorNodes ⟨[c4nA, c4nH]⟩ (storageNodeFor ⟨[c4nA, c4nH]⟩ none 16)
        [(⟨1, 5⟩, ⟨0, 16⟩)] [(⟨1, "s", "H"⟩, [⟨1, 5⟩])] 10).map
      (fun G => G.nodes.map fun n => (n.kind, n.nattrs)) =
      Except.ok [("PreAllocateTensor", [("size", 16), ("offset", 0)]),
        ("opA", []), ("opH", [])] ∧
    (insertPreAllocTensorNodes ⟨[c4nH, ⟨3, "opX", 2, "X", [], [], [], []⟩]⟩
        (storageNodeFor ⟨[c4nH]⟩ none 16)
        [(⟨1, 5⟩, ⟨0, 16⟩)] [(⟨1, "s", "H"⟩, [⟨1, 5⟩])] 10).map
      (fun G => G.nodes.map fun n => (n.kind, n.nattrs)) =
      Except.ok [("opH", []), ("PreAllocateTensor", [("size", 16), ("offset", 0)]),
        ("opX", [])] := by
  constructor
  · rfl
  · rfl

/-- C7 counterexample: in trace mode no placement bound is asserted.
With a storage node carrying `total_size = 1` and a placement
`[1,5] -> (offset 10, size 16)` whose `offset + size = 26` exceeds the
total, `insertPreAllocTensorNodes` succeeds and records the violating
placement instead of failing. -/
theorem c7_counterexample :
    (insertPreAllocTensorNodes ⟨[⟨4, "opB", 0, "B", [], [], [], []⟩]⟩
        (storageNodeFor ⟨[⟨4, "opB", 0, "B", [], [], [], []⟩]⟩ none 1)
        [(⟨1, 5⟩, ⟨10, 16⟩)] [(⟨1, "s", "H"⟩, [⟨1, 5⟩])] 30).map
      (fun G => G.nodes.map fun n => (n.kind, n.nattrs)) =
      Except.ok [("PreAllocateTensor", [("size", 16), ("offset", 10)]), ("opB", [])] ∧
    ¬(10 + 16 ≤
      ((storageNodeFor ⟨[⟨4, "opB", 0, "B", [], [], [], []⟩]⟩ none 1).nattrs.lookup
          "total_size").getD 0) := by
  constructor
  · rfl
  · decide

/-! ### Static liveness extraction (`computeStorageSize`,
`getManagedValues`) and the static planner (`planMemory`).

The externals consumed by `planMemory` — the operator registry
(`hasOutVariant`), alias analysis (`GetAlwaysAliveValues` /
`GetLiveness`), `isOptimizableContainerType`, `c10::elementSize` and
`tensorexpr::pickDeviceType` — are parameters of the embedding. -/

/-- `computeStorageSize` (`memory_planning.cpp`, lines 20-59):
`numel * elementSize(scalarType)` when the value has a tensor type
with a scalar type and concrete sizes, `nullopt` (with a warning)
otherwise.  `numel` is the product of the concrete sizes, and the
duplicated scalar-type check of the source is a single check (spec
note (b)). -/
def computeStorageSize (elementSize : Nat → Nat) (v : Value) : Option Nat :=
  match v.vtype with
  | none => none
  | some ttp =>
      match ttp.scalarType with
      | none => none
      | some st =>
          match ttp.sizes with
          | none => none
          | some szs => some (szs.foldr (· * ·) 1 * elementSize st)

/-- `at::detail::defaultStrides`.  Modelled from the spec: the
contiguous default — each stride is the product of the following
sizes. -/
def defaultStrides : List Nat → List Nat
  | [] => []
  | _ :: rest => rest.foldr (· * ·) 1 :: defaultStrides rest

/-- `getSizesStrides` (`memory_planning.cpp`, lines 61-82): use the
concrete sizes unless absent, empty or starting with 0 (then `[0]`);
use the concrete strides unless absent, empty or starting with 0
(then the contiguous default for the chosen sizes). -/
def getSizesStrides (ttp : TType) : List Nat × List Nat :=
  let sizes :=
    match ttp.sizes with
    | some s => if 0 < s.length ∧ s.headD 0 ≠ 0 then s else [0]
    | none => [0]
  let strides :=
    match ttp.strides with
    | some s => if 0 < s.length ∧ s.headD 0 ≠ 0 then s else defaultStrides sizes
    | none => defaultStrides sizes
  (sizes, strides)

/-- The per-output step of `getManagedValues` (`memory_planning.cpp`,
lines 210-227): skip always-alive values; record positive computable
sizes; otherwise the value is leaked, with a warning unless the node
is an optimizable container type. -/
def processOutput (isOptContainer : Bool) (alwaysAlive : Nat → Bool)
    (elementSize : Nat → Nat) (st : List (Nat × Nat) × List String) (v : Value) :
    List (Nat × Nat) × List String :=
  if alwaysAlive v.vid then st
  else
    match computeStorageSize elementSize v with
    | some s =>
        if 0 < s then (amInsert st.1 v.vid s, st.2)
        else if isOptContainer then st
        else (st.1, st.2 ++ ["not handling unsupported value"])
    | none =>
        if isOptContainer then st
        else (st.1, st.2 ++ ["not handling unsupported value"])

/-- `getManagedValues` (`memory_planning.cpp`, lines 197-230): walk
the nodes, keep those with an out-variant, and collect their managed
output sizes keyed by value id. -/
def getManagedValues (g : Graph) (hasOutVariant : GNode → Bool) (alwaysAlive : Nat → Bool)
    (isOptContainer : GNode → Bool) (elementSize : Nat → Nat) :
    List GNode × List (Nat × Nat) × List String :=
  g.nodes.foldl
    (fun st n =>
      if hasOutVariant n then
        (st.1 ++ [n],
          n.outputs.foldl (processOutput (isOptContainer n) alwaysAlive elementSize) st.2)
      else st)
    ([], ([], []))

def outNodesOf (g : Graph) (ho : GNode → Bool) (aa : Nat → Bool) (oc : GNode → Bool)
    (es : Nat → Nat) : List GNode :=
  (getManagedValues g ho aa oc es).1

def managedSizesOf (g : Graph) (ho : GNode → Bool) (aa : Nat → Bool) (oc : GNode → Bool)
    (es : Nat → Nat) : List (Nat × Nat) :=
  (getManagedValues g ho aa oc es).2.1

def managedWarnsOf (g : Graph) (ho : GNode → Bool) (aa : Nat → Bool) (oc : GNode → Bool)
    (es : Nat → Nat) : List String :=
  (getManagedValues g ho aa oc es).2.2

/-- The intersection step of `getManagedStuff` (`memory_planning.cpp`,
lines 245-250): keep the liveness entries of managed values.  The
liveness map itself comes from the external `jit::GetLiveness`. -/
def managedRangesOf (g : Graph) (ho : GNode → Bool) (aa : Nat → Bool) (oc : GNode → Bool)
    (es : Nat → Nat) (liveness : List (Nat × LiveRange)) : List (Nat × LiveRange) :=
  liveness.filter fun p => ((managedSizesOf g ho aa oc es).lookup p.1).isSome

/-- `std::unordered_map::operator[] = v`: overwrite if present, append
otherwise. -/
def alSet (m : List (LiveRange × Nat)) (k : LiveRange) (v : Nat) : List (LiveRange × Nat) :=
  if (m.lookup k).isSome then m.map fun q => if q.1 = k then (k, v) else q
  else m ++ [(k, v)]

/-- The `managed_live_ranges` loop of `planMemory`
(`memory_planning.cpp`, lines 381-384):
`managed_live_ranges[managed_value_ranges[v]] = size` for every
managed `(v, size)`.  `managed_value_ranges[v]` uses `operator[]`, so
a value without a range default-constructs (and inserts) the zero
range; the assignment overwrites, so the last value written for a
shared range key wins. -/
def buildMLR (mvr : List (Nat × LiveRange)) (mvs : List (Nat × Nat)) :
    List (Nat × LiveRange) × List (LiveRange × Nat) :=
  mvs.foldl
    (fun st p =>
      match st.1.lookup p.1 with
      | some r => (st.1, alSet st.2 r p.2)
      | none => (st.1 ++ [(p.1, ⟨0, 0⟩)], alSet st.2 ⟨0, 0⟩ p.2))
    (mvr, [])

/-- The `managed_range_values` loop of `planMemory`
(`memory_planning.cpp`, lines 410-420): a `std::map` keyed by
`LiveRange` under `live_range_start_cmp`; a duplicate key warns
("overlapping live ranges") and `insert` then keeps the first entry. -/
def buildMRV (mvr : List (Nat × LiveRange)) : List (LiveRange × Nat) × List String :=
  mvr.foldl
    (fun st p =>
      if (st.1.lookup p.2).isSome then (st.1, st.2 ++ ["overlapping live ranges"])
      else (st.1 ++ [(p.2, p.1)], st.2))
    ([], [])

def findProducer (g : Graph) (vid : Nat) : Option GNode :=
  g.nodes.find? fun n => n.outputs.any fun v => v.vid == vid

def addInputTo (g : Graph) (nid : Nat) (vid : Nat) : Graph :=
  ⟨g.nodes.map fun n => if n.nid = nid then { n with inputs := n.inputs ++ [vid] } else n⟩

def insertBeforeNid (nodes : List GNode) (nid : Nat) (newN : GNode) : List GNode :=
  match nodes with
  | [] => []
  | n :: rest => if n.nid = nid then newN :: n :: rest else n :: insertBeforeNid rest nid newN

/-- The loop body of `insertAllocTensorNodes` (`memory_planning.cpp`,
lines 107-136): look the region up in the plan (`operator[]`, zero
region when absent), create a `prim::AllocateTensor` node before the
producer of the managed value, append its output as an extra input of
the producer, connect it to the storage output, `TORCH_CHECK` the
placement bound `offset + size <= total_size`, and set the
`size/offset/sizes/stride/device/dtype` attributes. -/
def allocTensorGo (total device storageVid : Nat) (allocations : List (LiveRange × Region)) :
    Graph → Nat → List (LiveRange × Nat) → Except String Graph
  | g, _, [] => Except.ok g
  | g, fresh, (lvr, vid) :: rest =>
      let region := (allocations.lookup lvr).getD ⟨0, 0⟩
      match findProducer g vid with
      | none => Except.error "managed value has no producer node"
      | some pnode =>
          match (pnode.outputs.find? fun v => v.vid == vid).bind Value.vtype with
          | none => Except.error "expected TensorType"
          | some ttp =>
              match ttp.scalarType with
              | none => Except.error "bad optional access: scalar type"
              | some dtype =>
                  if region.offset + region.size ≤ total then
                    let ss := getSizesStrides ttp
                    let alloc : GNode :=
                      { nid := fresh, kind := "AllocateTensor", time := 0, header := "",
                        inputs := [storageVid], outputs := [⟨fresh + 1, none⟩],
                        nattrs := [("size", region.size), ("offset", region.offset),
                          ("device", device), ("dtype", dtype)],
                        lattrs := [("sizes", ss.1), ("stride", ss.2)] }
                    let g2 := addInputTo g pnode.nid (fresh + 1)
                    allocTensorGo total device storageVid allocations
                      ⟨insertBeforeNid g2.nodes pnode.nid alloc⟩ (fresh + 2) rest
                  else
                    Except.error
                      "trying to create an allocation that exceeds previously planned memory"

/-- `insertAllocTensorNodes` (`memory_planning.cpp`, lines 100-137):
iterate the `std::map` in its sorted order using the storage node's
`total_size` and `device` attributes and its output value. -/
def insertAllocTensorNodes (g : Graph) (storage : GNode)
    (allocations : List (LiveRange × Region)) (manage_range_values : List (LiveRange × Nat))
    (fresh : Nat) : Except String Graph :=
  allocTensorGo ((storage.nattrs.lookup "total_size").getD 0)
    ((storage.nattrs.lookup "device").getD 0)
    ((storage.outputs.headD ⟨0, none⟩).vid) allocations g fresh
    (sortBy (fun a b => startLe a.1 b.1) manage_range_values)

/-- The tail of `planMemory` after a plan has been chosen
(`memory_planning.cpp`, lines 408-431): total size, duplicate-range
dedup with warnings, storage node, allocation nodes. -/
def planMemoryFinish (g : Graph) (allocations : List (LiveRange × Region))
    (mvr2 : List (Nat × LiveRange)) (warns : List String) (deviceType : Option Nat) :
    Except String (Graph × List String) :=
  let bm := buildMRV mvr2
  let gs := insertAllocStorageNode g deviceType (getTotalAllocationSize allocations)
  match insertAllocTensorNodes gs.1 gs.2 allocations bm.1 (graphMaxId gs.1 + 1) with
  | Except.ok g3 => Except.ok (g3, warns ++ bm.2)
  | Except.error msg => Except.error msg

/-- `planMemory` (`memory_planning.cpp`, lines 374-432). -/
def planMemory (g : Graph) (strat : Strategy) (ho : GNode → Bool) (aa : Nat → Bool)
    (oc : GNode → Bool) (es : Nat → Nat) (liveness : List (Nat × LiveRange))
    (deviceType : Option Nat) : Except String (Graph × List String) :=
  let mvs := managedSizesOf g ho aa oc es
  let bm := buildMLR (managedRangesOf g ho aa oc es liveness) mvs
  match strat with
  | Strategy.NAIVE => Except.ok (g, managedWarnsOf g ho aa oc es)
  | Strategy.LINEAR_SCAN =>
      planMemoryFinish g (linearScanHeuristic bm.2) bm.1 (managedWarnsOf g ho aa oc es)
        deviceType
  | Strategy.GREEDY_BY_SIZE =>
      planMemoryFinish g (greedyBySize bm.2) bm.1 (managedWarnsOf g ho aa oc es) deviceType
  | Strategy.GREEDY_BY_BREADTH =>
      planMemoryFinish g (greedyByOperatorBreadth mvs bm.1 (outNodesOf g ho aa oc es)) bm.1
        (managedWarnsOf g ho aa oc es) deviceType

/-! ### C6: duplicate live ranges in the static planner -/

def c6n1 : GNode := ⟨1, "op1", 0, "h1", [], [⟨11, some ⟨some 0, some [1], some [1]⟩⟩], [], []⟩

def c6n2 : GNode := ⟨2, "op2", 1, "h2", [], [⟨12, some ⟨some 0, some [2], some [1]⟩⟩], [], []⟩

def c6graph : Graph := ⟨[c6n1, c6n2]⟩

/-- Liveness assigning the identical range `[0,1]` to the two managed
values 11 (4 bytes) and 12 (8 bytes). -/
def c6liveness : List (Nat × LiveRange) := [(11, ⟨0, 1⟩), (12, ⟨0, 1⟩)]

def c6plan : Except String (Graph × List String) :=
  planMemory c6graph Strategy.LINEAR_SCAN (fun _ => true) (fun _ => false) (fun _ => false)
    (fun _ => 4) c6liveness none

/-- C6 counterexample: with two distinct managed values (producers 1
and 2) on identical live ranges, it is NOT the case that each of the
two producer nodes gains exactly one input: only producer 1 does,
producer 2 gains none (the `std::map` keyed by live range drops the
second value, so only one value is materialized). -/
theorem c6_counterexample :
    ¬(c6plan.toOption.map
        (fun p => p.1.nodes.filterMap fun n =>
          if n.nid == 1 || n.nid == 2 then some n.inputs.length else none) =
      some [1, 1]) := by
  decide

/-- C6 amended: identical live ranges for two distinct values warn
("overlapping live ranges") but are NOT packed independently: exactly
one AllocateTensor node is created, the first value's producer gains
its output (value 16) as its only new input, the second value's
producer gains nothing, and the single region carries the size last
written for the shared range key (8, the second value's size) rather
than the surviving first value's own size (4). -/
theorem c6_amended_first_value_materialized_once :
    c6plan.map
      (fun p => (p.2,
        (p.1.nodes.filter fun n => n.kind == "AllocateTensor").map
          (fun n => (n.inputs, n.outputs.map Value.vid, n.nattrs)),
        p.1.nodes.filterMap fun n =>
          if n.nid == 1 || n.nid == 2 then some n.inputs else none)) =
      Except.ok (["overlapping live ranges"],
        [([14], [16], [("size", 8), ("offset", 0), ("device", 0), ("dtype", 0)])],
        [[16], []]) := by
  rfl

/-! ### C7: placement bound -/

theorem le_getTotalAllocationSize (allocations : List (LiveRange × Region)) :
    ∀ p ∈ allocations, p.2.offset + p.2.size ≤ getTotalAllocationSize allocations := by
  induction allocations with
  | nil => intro p hp; cases hp
  | cons q rest ih =>
      intro p hp
      rcases List.mem_cons.mp hp with h | h
      · subst h; exact Nat.le_max_right _ _
      · exact Nat.le_trans (ih p h) (Nat.le_max_left _ _)

def c7graphB : Graph := ⟨[⟨5, "opC", 0, "hC", [], [⟨40, some ⟨some 0, some [1], none⟩⟩], [], []⟩]⟩

/-- C7 amended: every region of a plan satisfies
`offset + size ≤ getTotalAllocationSize plan`, so the static-mode
`TORCH_CHECK` (which is performed for every placement and — shown at a
concrete violating input — fails otherwise) never fails when
`total_size` is computed from the plan; trace mode performs no such
check (see the counterexample). -/
theorem c7_static_bound_check_never_fails :
    (∀ (allocations : List (LiveRange × Region)), ∀ p ∈ allocations,
      p.2.offset + p.2.size ≤ getTotalAllocationSize allocations) ∧
    allocTensorGo 1 0 9 [(⟨1, 2⟩, ⟨10, 16⟩)] c7graphB 50 [(⟨1, 2⟩, 40)] =
      Except.error "trying to create an allocation that exceeds previously planned memory" := by
  constructor
  · exact le_getTotalAllocationSize
  · rfl

/-- Witness for C7 at the singleton plan `{[0,1] -> (0,5)}`. -/
theorem c7_static_bound_check_never_fails_witness :
    ((⟨0, 1⟩, ⟨0, 5⟩) : LiveRange × Region) ∈ [((⟨0, 1⟩, ⟨0, 5⟩) : LiveRange × Region)] ∧
    ((⟨0, 1⟩, ⟨0, 5⟩) : LiveRange × Region).2.offset +
        ((⟨0, 1⟩, ⟨0, 5⟩) : LiveRange × Region).2.size ≤
      getTotalAllocationSize [((⟨0, 1⟩, ⟨0, 5⟩) : LiveRange × Region)] :=
  ⟨by decide,
    c7_static_bound_check_never_fails.1 [((⟨0, 1⟩, ⟨0, 5⟩) : LiveRange × Region)]
      ((⟨0, 1⟩, ⟨0, 5⟩) : LiveRange × Region) (by decide)⟩

/-! ### C8: Naive is a no-op -/

/-- C8: `planMemory` with strategy `NAIVE` returns with the graph
unchanged — no AllocateStorage or AllocateTensor node is inserted and
no node's inputs change (only the liveness-extraction warnings are
produced). -/
theorem c8_naive_no_mutation (g : Graph) (ho : GNode → Bool) (aa : Nat → Bool)
    (oc : GNode → Bool) (es : Nat → Nat) (liveness : List (Nat × LiveRange))
    (dev : Option Nat) :
    planMemory g Strategy.NAIVE ho aa oc es liveness dev =
      Except.ok (g, managedWarnsOf g ho aa oc es) := rfl

/-! ### C9: empty managed set -/

theorem filter_lookup_nil (liveness : List (Nat × LiveRange)) :
    (liveness.filter fun p => (([] : List (Nat × Nat)).lookup p.1).isSome) = [] := by
  induction liveness with
  | nil => rfl
  | cons p tl ih =>
      simp only [List.filter_cons, List.lookup, Option.isSome_none, Bool.false_eq_true,
        if_false]
      exact ih

theorem breadthItems_nilSizes (rng : List (Nat × LiveRange)) :
    ∀ ns : List GNode, breadthItems [] rng ns = [] := by
  intro ns
  induction ns with
  | nil => rfl
  | cons n tl ih =>
      show n.outputs.filterMap (managedItem [] rng) ++ breadthItems [] rng tl = []
      rw [ih, List.append_nil]
      induction n.outputs with
      | nil => rfl
      | cons v vs ihv =>
          rw [List.filterMap_cons, show managedItem [] rng v = none from rfl]
          exact ihv

theorem greedyByOperatorBreadth_nilSizes (rng : List (Nat × LiveRange)) (ns : List GNode) :
    greedyByOperatorBreadth [] rng ns = [] := by
  show packGo _ []
    (breadthItems [] rng
      (sortBy (fun a b => decide (nodeBreadth [] rng b ≤ nodeBreadth [] rng a)) ns)) = []
  rw [breadthItems_nilSizes]
  rfl

theorem planMemoryFinish_nil (g : Graph) (w : List String) (dev : Option Nat) :
    planMemoryFinish g [] [] w dev =
      Except.ok (⟨storageNodeFor g dev 0 :: g.nodes⟩, w) := by
  have h : planMemoryFinish g [] [] w dev =
      Except.ok (⟨storageNodeFor g dev 0 :: g.nodes⟩, w ++ []) := rfl
  rw [h, List.append_nil]

/-- C9: when the managed value set comes out empty, `planMemory` with
any strategy other than `NAIVE` still mutates the graph: it inserts
exactly one `AllocateStorage` node with `total_size = 0` at the front
of the graph and no `AllocateTensor` node. -/
theorem c9_empty_managed_inserts_storage_only
    (g : Graph) (strat : Strategy) (ho : GNode → Bool) (aa : Nat → Bool) (oc : GNode → Bool)
    (es : Nat → Nat) (liveness : List (Nat × LiveRange)) (dev : Option Nat)
    (hstrat : strat ≠ Strategy.NAIVE)
    (hmv : managedSizesOf g ho aa oc es = []) :
    planMemory g strat ho aa oc es liveness dev =
      Except.ok (⟨storageNodeFor g dev 0 :: g.nodes⟩, managedWarnsOf g ho aa oc es) := by
  have hmr : managedRangesOf g ho aa oc es liveness = [] := by
    rw [managedRangesOf, hmv]
    exact filter_lookup_nil liveness
  have hb : buildMLR ([] : List (Nat × LiveRange)) ([] : List (Nat × Nat)) = ([], []) := rfl
  cases strat with
  | NAIVE => exact absurd rfl hstrat
  | LINEAR_SCAN =>
      simp only [planMemory, hmv, hmr, hb]
      exact planMemoryFinish_nil g _ dev
  | GREEDY_BY_SIZE =>
      simp only [planMemory, hmv, hmr, hb]
      exact planMemoryFinish_nil g _ dev
  | GREEDY_BY_BREADTH =>
      simp only [planMemory, hmv, hmr, hb]
      rw [greedyByOperatorBreadth_nilSizes]
      exact planMemoryFinish_nil g _ dev

def c9g : Graph := ⟨[⟨1, "op", 0, "h", [], [⟨5, none⟩], [], []⟩]⟩

/-- Witness for C9: a one-node graph where no node has an out-variant,
strategy LinearScan. -/
theorem c9_empty_managed_inserts_storage_only_witness :
    Strategy.LINEAR_SCAN ≠ Strategy.NAIVE ∧
    managedSizesOf c9g (fun _ => false) (fun _ => false) (fun _ => false) (fun _ => 1) = [] ∧
    planMemory c9g Strategy.LINEAR_SCAN (fun _ => false) (fun _ => false) (fun _ => false)
        (fun _ => 1) [] none =
      Except.ok (⟨storageNodeFor c9g none 0 :: c9g.nodes⟩,
        managedWarnsOf c9g (fun _ => false) (fun _ => false) (fun _ => false) (fun _ => 1)) :=
  ⟨by decide, rfl,
    c9_empty_managed_inserts_storage_only c9g Strategy.LINEAR_SCAN (fun _ => false)
      (fun _ => false) (fun _ => false) (fun _ => 1) [] none (by decide) rfl⟩

end MemPlan
